import Mathlib

/-!
Verification of the WheelHouse streamer core against its specification.

The development shallowly embeds the two source modules:
* `occ_converter.py` — the Symbol Codec (`position_to_occ`, `occ_to_position`,
  `positions_to_occ_symbols`);
* `streamer.py` — subscription management, broadcast fan-out, quote
  normalization, and the session supervisor loops.

Python strings are modelled as `List Char`; Python floats that carry decimal
prices are modelled as `ℚ` (all values that reach the arithmetic here are
decimal literals, so rational arithmetic is exact where binary floating point
is exact on the inputs the theorems quantify over); Python sets are modelled
as lists up to membership, in iteration order.
-/

/-- Python `str.upper` (ASCII range; the data handled here is ASCII). -/
def pyUpper (s : List Char) : List Char := s.map Char.toUpper

/-- Python `str.lower` (ASCII range). -/
def pyLower (s : List Char) : List Char := s.map Char.toLower

/-- Python `str.strip` with no argument: remove leading and trailing
whitespace. -/
def pyStrip (s : List Char) : List Char :=
  ((s.dropWhile Char.isWhitespace).reverse.dropWhile Char.isWhitespace).reverse

/-- Python `str.ljust(w)`: pad on the right with spaces up to width `w`. -/
def pyLjust (w : Nat) (s : List Char) : List Char :=
  s ++ List.replicate (w - s.length) ' '

/-- The decimal digit character for `d < 10`. -/
def digitChar (d : Nat) : Char := Char.ofNat (48 + d)

/-- Little-endian decimal digits, with explicit fuel so that the kernel can
evaluate it (`Nat.digits` is defined by well-founded recursion and does not
reduce); `decDigitsAux_eq_digits` identifies it with `Nat.digits 10`. -/
def decDigitsAux : Nat → Nat → List Nat
  | 0, _ => []
  | _ + 1, 0 => []
  | fuel + 1, n + 1 => ((n + 1) % 10) :: decDigitsAux fuel ((n + 1) / 10)

/-- Little-endian decimal digits of `n`. -/
def decDigits (n : Nat) : List Nat := decDigitsAux n n

/-- Python `str(n)` for a natural number. -/
def natToDecimal (n : Nat) : List Char :=
  if n = 0 then ['0'] else ((decDigits n).map digitChar).reverse

/-- Python `str(i)` for an integer (sign included). -/
def intToDecimal (i : Int) : List Char :=
  if i < 0 then '-' :: natToDecimal i.natAbs else natToDecimal i.toNat

/-- Left-pad with `'0'` up to width `w`. -/
def padZeros (w : Nat) (s : List Char) : List Char :=
  List.replicate (w - s.length) '0' ++ s

/-- Python `str.zfill(w)`: zero-pad to width `w`, keeping a leading sign in
front of the inserted zeros. -/
def pyZfill (w : Nat) (s : List Char) : List Char :=
  match s with
  | [] => padZeros w []
  | c :: rest =>
      if c = '-' ∨ c = '+' then c :: padZeros (w - 1) rest
      else padZeros w (c :: rest)

/-- Numeric value of a decimal digit character. -/
def decDigitVal (c : Char) : Nat := c.toNat - 48

/-- Python `int(s)` core loop on a digit string (most-significant first). -/
def parseDecNat (s : List Char) : Nat :=
  s.foldl (fun a c => a * 10 + decDigitVal c) 0

/-- Does `h` start with `n`? -/
def startsWithSeq : List Char → List Char → Bool
  | [], _ => true
  | _ :: _, [] => false
  | a :: ns, b :: hs => a == b && startsWithSeq ns hs

/-- Python `n in h` substring test. -/
def containsSeq (needle : List Char) : List Char → Bool
  | [] => needle.isEmpty
  | b :: hs => startsWithSeq needle (b :: hs) || containsSeq needle hs

/-- Python `int()` applied to a rational: truncation toward zero. -/
def pyTrunc (q : ℚ) : Int := if 0 ≤ q then ⌊q⌋ else ⌈q⌉

/-- A calendar date as handled by `datetime.strptime` / `strftime`. -/
structure OCCDate where
  year : Nat
  month : Nat
  day : Nat
deriving DecidableEq, Repr

/-- Gregorian leap-year rule (as used by Python `datetime`). -/
def isLeapYear (y : Nat) : Bool :=
  y % 4 == 0 && (y % 100 != 0 || y % 400 == 0)

/-- Days in a month of a given year. -/
def daysInMonth (y m : Nat) : Nat :=
  if m = 2 then (if isLeapYear y then 29 else 28)
  else if m = 4 ∨ m = 6 ∨ m = 9 ∨ m = 11 then 30
  else 31

/-- The dates `datetime` can represent (year 1–9999), with valid month/day. -/
def validOCCDate (d : OCCDate) : Prop :=
  1 ≤ d.year ∧ d.year ≤ 9999 ∧ 1 ≤ d.month ∧ d.month ≤ 12 ∧
    1 ≤ d.day ∧ d.day ≤ daysInMonth d.year d.month

instance (d : OCCDate) : Decidable (validOCCDate d) := by
  unfold validOCCDate; infer_instance

/-- Two-digit zero-padded decimal (`%y`, `%m`, `%d` output of `strftime`). -/
def pad2 (n : Nat) : List Char := padZeros 2 (natToDecimal n)

/-- Model of `exp_date.strftime("%y%m%d")` — occ_converter.py line 36. -/
def formatYYMMDD (d : OCCDate) : List Char :=
  pad2 (d.year % 100) ++ pad2 d.month ++ pad2 d.day

/-- Lines 40–47 of occ_converter.py: resolve the class flag from the
option-type label; `'put' in opt_type` wins over `'call' in opt_type`,
anything else raises. -/
def putCallFlag (option_type : List Char) : Option Char :=
  let opt_type := pyLower option_type
  if containsSeq ("put".toList) opt_type then some 'P'
  else if containsSeq ("call".toList) opt_type then some 'C'
  else none

/-- Encoder `position_to_occ` (occ_converter.py lines 17–54).

The Python function takes the expiry as a `"YYYY-MM-DD"` string and raises
`ValueError` unless it parses as a calendar date; here the expiry is taken
directly as the parsed `OCCDate` (theorems about this function carry
`validOCCDate` as a hypothesis where the claim assumes a calendar date).
The strike conversion is `int(strike * 1000)` — truncation toward zero —
then `str(...).zfill(8)`. -/
def position_to_occ (ticker : List Char) (expiry : OCCDate) (strike : ℚ)
    (option_type : List Char) : Except String (List Char) :=
  match putCallFlag option_type with
  | none => Except.error "Cannot determine put or call from type"
  | some pc =>
      let strike_int := pyTrunc (strike * 1000)
      let strike_str := pyZfill 8 (intToDecimal strike_int)
      Except.ok (pyLjust 6 (pyUpper ticker) ++ formatYYMMDD expiry ++ [pc] ++ strike_str)

/-- Result record of `occ_to_position`: the Python function returns the
expiry re-formatted as `"YYYY-MM-DD"`; since that formatting is injective on
the dates `%y` can produce, the date value itself is returned here. -/
structure DecodedPosition where
  ticker : List Char
  expiry : OCCDate
  strike : ℚ
  optionType : List Char
  occSymbol : List Char
deriving DecidableEq, Repr

/-- The `%y` two-digit-year pivot of `strptime`: 00–68 ↦ 2000–2068,
69–99 ↦ 1969–1999. -/
def pivotY2 (yy : Nat) : Nat := if yy ≤ 68 then 2000 + yy else 1900 + yy

/-- Model of `datetime.strptime(date_str, "%y%m%d")` on the 6-character slice
(occ_converter.py line 81): all six characters must be digits, and the
month/day must be valid for the pivoted year. -/
def parseDateYYMMDD (s : List Char) : Option OCCDate :=
  if s.length = 6 ∧ s.all Char.isDigit then
    let mm := parseDecNat ((s.drop 2).take 2)
    let dd := parseDecNat ((s.drop 4).take 2)
    let y := pivotY2 (parseDecNat (s.take 2))
    if 1 ≤ mm ∧ mm ≤ 12 ∧ 1 ≤ dd ∧ dd ≤ daysInMonth y mm then
      some ⟨y, mm, dd⟩
    else none
  else none

/-- Python `int(s)` on the strike slice (occ_converter.py line 87), as an
`Option`. Modelled for unsigned digit strings — the only shape the codec
itself ever produces; Python additionally accepts surrounding whitespace, a
sign and digit-group underscores, which never arise from `position_to_occ`
output and are not modelled. -/
def parseDigitsInt (s : List Char) : Option Nat :=
  if s ≠ [] ∧ s.all Char.isDigit then some (parseDecNat s) else none

/-- Decoder `occ_to_position` (occ_converter.py lines 57–98): uppercase and strip,
check length ≥ 21, slice ticker/date/flag/strike, parse the date (error on
failure), parse the strike integer (ValueError on failure), and classify the
flag — `'P'` gives `put`, anything else gives `call`. -/
def occ_to_position (occ_symbol : List Char) : Except String DecodedPosition :=
  let occ := pyStrip (pyUpper occ_symbol)
  if occ.length < 21 then Except.error "Invalid OCC symbol length"
  else
    match parseDateYYMMDD ((occ.drop 6).take 6) with
    | none => Except.error "Invalid date in OCC symbol"
    | some d =>
        match parseDigitsInt ((occ.drop 13).take 8) with
        | none => Except.error "invalid literal for int"
        | some n =>
            Except.ok
              { ticker := pyStrip (occ.take 6)
                expiry := d
                strike := (n : ℚ) / 1000
                optionType := if occ.getD 12 ' ' = 'P' then "put".toList else "call".toList
                occSymbol := occ_symbol }

deriving instance DecidableEq for Except

/-- Python `round` with no digit argument — round-half-to-even on the scaled
strike. Modelled from the spec's words ("Strike is converted to an integer
via `round(strike * 1000)`") to compare against the source's `int(...)`
truncation; the source itself never calls `round`. -/
def pyRound (q : ℚ) : Int :=
  if q - ⌊q⌋ < 1 / 2 then ⌊q⌋
  else if 1 / 2 < q - ⌊q⌋ then ⌊q⌋ + 1
  else if ⌊q⌋ % 2 = 0 then ⌊q⌋ else ⌊q⌋ + 1

/-- An upstream call issued to the Schwab stream client (streamer.py lines
228, 231, 254, 256, 277). -/
inductive UpstreamCall where
  | optionSubs (symbols : List String)
  | optionAdd (symbols : List String)
  | equitySubs (symbols : List String)
  | equityAdd (symbols : List String)
  | optionUnsubs (symbols : List String)
deriving DecidableEq, Repr

/-- The module-level state of streamer.py touched by the subscription and
session functions: the two subscription sets (lines 46–47; Python sets,
modelled as lists in iteration order, compared up to membership) and the
stream-client handle (line 51; `some h` while a session object is held). -/
structure StreamerState where
  subscribed_options : List String
  subscribed_equities : List String
  stream_client : Option Nat
deriving DecidableEq, Repr

/-- Function `subscribe_options` (streamer.py lines 213–237). `upstreamOk` is the
outcome of the awaited upstream call (`False` = the call raised); the second
component lists the upstream calls issued by this invocation. -/
def subscribe_options (upstreamOk : Bool) (symbols : List String)
    (st : StreamerState) : StreamerState × List UpstreamCall :=
  if st.stream_client.isNone then (st, [])
  else
    let new_symbols := symbols.filter (fun s => !st.subscribed_options.contains s)
    if new_symbols.isEmpty then (st, [])
    else
      let call := if st.subscribed_options.isEmpty then
          UpstreamCall.optionSubs new_symbols
        else UpstreamCall.optionAdd new_symbols
      if upstreamOk then
        ({ st with subscribed_options := st.subscribed_options ++ new_symbols }, [call])
      else (st, [call])

/-- Function `subscribe_equities` (streamer.py lines 240–262), same shape as
`subscribe_options`. -/
def subscribe_equities (upstreamOk : Bool) (symbols : List String)
    (st : StreamerState) : StreamerState × List UpstreamCall :=
  if st.stream_client.isNone then (st, [])
  else
    let new_symbols := symbols.filter (fun s => !st.subscribed_equities.contains s)
    if new_symbols.isEmpty then (st, [])
    else
      let call := if st.subscribed_equities.isEmpty then
          UpstreamCall.equitySubs new_symbols
        else UpstreamCall.equityAdd new_symbols
      if upstreamOk then
        ({ st with subscribed_equities := st.subscribed_equities ++ new_symbols }, [call])
      else (st, [call])

/-- Function `unsubscribe_options` (streamer.py lines 265–281): remove only the
already-subscribed symbols, no-op when that intersection is empty, and keep
the set untouched when the upstream unsubscribe raises. -/
def unsubscribe_options (upstreamOk : Bool) (symbols : List String)
    (st : StreamerState) : StreamerState × List UpstreamCall :=
  if st.stream_client.isNone then (st, [])
  else
    let to_remove := symbols.filter (fun s => st.subscribed_options.contains s)
    if to_remove.isEmpty then (st, [])
    else if upstreamOk then
      ({ st with subscribed_options :=
          st.subscribed_options.filter (fun s => !to_remove.contains s) },
        [UpstreamCall.optionUnsubs to_remove])
    else (st, [UpstreamCall.optionUnsubs to_remove])

/-- The `get_status` reply (streamer.py lines 82–88): `connected` is
`stream_client is not None`; the two lists are `list(subscribed_options)` /
`list(subscribed_equities)` — the sets' elements in iteration order, with no
sorting applied. -/
structure StatusResponse where
  connected : Bool
  subscribed_options : List String
  subscribed_equities : List String
deriving DecidableEq, Repr

/-- Lines 82–88 of streamer.py. -/
def get_status (st : StreamerState) : StatusResponse :=
  { connected := st.stream_client.isSome
    subscribed_options := st.subscribed_options
    subscribed_equities := st.subscribed_equities }

/-- The send loop of `broadcast_to_node` (streamer.py lines 114–120):
iterate over the connected clients, `await client.send(message)` inside a
`try`, and collect the clients whose send raised `ConnectionClosed` (the
`broken` predicate) into the `disconnected` set. Returns
`(delivered, disconnected)`. -/
def broadcast_send_fold (broken : Nat → Bool) :
    List Nat → List Nat × List Nat → List Nat × List Nat
  | [], acc => acc
  | c :: rest, (delivered, disconnected) =>
      if broken c then broadcast_send_fold broken rest (delivered, disconnected ++ [c])
      else broadcast_send_fold broken rest (delivered ++ [c], disconnected)

/-- Function `broadcast_to_node` (streamer.py lines 103–123): early return when no
clients; otherwise send to every client, collecting failures, then
`connected_clients.difference_update(disconnected)`. Returns the list of
clients that received the message and the surviving client set. -/
def broadcast_to_node (clients : List Nat) (broken : Nat → Bool) :
    List Nat × List Nat :=
  if clients.isEmpty then ([], clients)
  else
    let res := broadcast_send_fold broken clients ([], [])
    (res.1, clients.filter (fun c => !res.2.contains c))

/-- A raw event item (`item` in streamer.py lines 133/170): a JSON object,
modelled as a function from raw field names to optional uninterpreted values. A key
mapped to `none` is absent from the object. -/
abbrev RawItem := String → Option String

/-- The fixed field mapping of `handle_option_quote` (streamer.py lines
135–155), excluding the `symbol` entry which carries a default. -/
def optionFieldTable : List (String × String) :=
  [("bid", "BID_PRICE"), ("ask", "ASK_PRICE"), ("last", "LAST_PRICE"),
   ("bidSize", "BID_SIZE"), ("askSize", "ASK_SIZE"),
   ("volume", "TOTAL_VOLUME"), ("openInterest", "OPEN_INTEREST"),
   ("delta", "DELTA"), ("gamma", "GAMMA"), ("theta", "THETA"),
   ("vega", "VEGA"), ("rho", "RHO"), ("iv", "VOLATILITY"),
   ("underlyingPrice", "UNDERLYING_PRICE"),
   ("daysToExpiration", "DAYS_TO_EXPIRATION"), ("timeValue", "TIME_VALUE"),
   ("theoreticalValue", "THEORETICAL_OPTION_VALUE"), ("mark", "MARK"),
   ("quoteTime", "QUOTE_TIME_MILLIS"), ("tradeTime", "TRADE_TIME_MILLIS")]

/-- The fixed field mapping of `handle_equity_quote` (streamer.py lines
171–189), excluding the `symbol` entry. -/
def equityFieldTable : List (String × String) :=
  [("bid", "BID_PRICE"), ("ask", "ASK_PRICE"), ("last", "LAST_PRICE"),
   ("bidSize", "BID_SIZE"), ("askSize", "ASK_SIZE"),
   ("volume", "TOTAL_VOLUME"), ("high", "HIGH_PRICE"), ("low", "LOW_PRICE"),
   ("open", "OPEN_PRICE"), ("close", "CLOSE_PRICE"),
   ("netChange", "NET_CHANGE"), ("netChangePercent", "NET_CHANGE_PERCENT"),
   ("high52Week", "HIGH_PRICE_52_WEEK"), ("low52Week", "LOW_PRICE_52_WEEK"),
   ("mark", "MARK"), ("quoteTime", "QUOTE_TIME_MILLIS"),
   ("tradeTime", "TRADE_TIME_MILLIS")]

/-- The `quote_data` dict literal before null-pruning: the `symbol` entry is
`item.get('key', item.get('SYMBOL', ''))` — always present, defaulting to
the empty string — and every other entry is `item.get(RAW_KEY)`, which is
`None` (here `none`) when the raw field is absent. -/
def mkQuoteRecord (table : List (String × String)) (item : RawItem) :
    List (String × Option String) :=
  ("symbol", some ((item "key").getD ((item "SYMBOL").getD ""))) ::
    table.map (fun p => (p.1, item p.2))

/-- The null-pruning comprehension
`{k: v for k, v in quote_data.items() if v is not None}`
(streamer.py lines 159 and 193). -/
def pruneNone (l : List (String × Option String)) : List (String × Option String) :=
  l.filter (fun p => p.2.isSome)

/-- Normalization of one option-quote item (streamer.py lines 133–161). -/
def handle_option_quote_item (item : RawItem) : List (String × Option String) :=
  pruneNone (mkQuoteRecord optionFieldTable item)

/-- Normalization of one equity-quote item (streamer.py lines 170–195). -/
def handle_equity_quote_item (item : RawItem) : List (String × Option String) :=
  pruneNone (mkQuoteRecord equityFieldTable item)

/-- Effect of `stream_message_loop` terminating (streamer.py lines 347–362):
the `while True: await stream_client.handle_message()` loop exits only by an
exception; the `except` block logs the error and the traceback and performs
no state mutation — in particular, despite the `global stream_client`
declaration on line 349, `stream_client` is never reassigned, so the state
is returned unchanged. -/
def stream_message_loop_exit (st : StreamerState) : StreamerState := st

/-- One iteration of `reconnect_loop` (streamer.py lines 365–376): if
`stream_client is None`, attempt `connect_to_schwab()` (outcome `connectOk`;
on success a new stream client `fresh` is installed and the message loop is
started); otherwise do nothing. The boolean records whether a connect
attempt was made this iteration. -/
def reconnect_loop_iteration (connectOk : Bool) (fresh : Nat)
    (st : StreamerState) : StreamerState × Bool :=
  if st.stream_client.isNone then
    (if connectOk then { st with stream_client := some fresh } else st, true)
  else (st, false)

/-! ### Helper lemmas: decimal digits and parsing -/

lemma decDigitsAux_eq_digits : ∀ fuel n, n ≤ fuel → decDigitsAux fuel n = Nat.digits 10 n := by
  intro fuel
  induction fuel with
  | zero =>
      intro n h
      interval_cases n
      simp [decDigitsAux]
  | succ f ih =>
      intro n h
      match n with
      | 0 => simp [decDigitsAux]
      | m + 1 =>
          rw [decDigitsAux, Nat.digits_def' (by norm_num : (1:ℕ) < 10) (Nat.succ_pos m)]
          congr 1
          refine ih _ ?_
          have := Nat.div_lt_self (Nat.succ_pos m) (by norm_num : (1:ℕ) < 10)
          omega

lemma decDigits_eq_digits (n : Nat) : decDigits n = Nat.digits 10 n :=
  decDigitsAux_eq_digits n n le_rfl

lemma mem_natToDecimal {c : Char} {n : Nat} (h : c ∈ natToDecimal n) :
    ∃ d, d < 10 ∧ c = digitChar d := by
  unfold natToDecimal at h
  split at h
  · refine ⟨0, by norm_num, ?_⟩
    simpa using h
  · rw [decDigits_eq_digits] at h
    simp only [List.mem_reverse, List.mem_map] at h
    obtain ⟨d, hd, rfl⟩ := h
    exact ⟨d, Nat.digits_lt_base (by norm_num) hd, rfl⟩

lemma digitChar_props {d : Nat} (h : d < 10) :
    (digitChar d).isDigit = true ∧ Char.toUpper (digitChar d) = digitChar d ∧
      (digitChar d).isWhitespace = false ∧ digitChar d ≠ '-' ∧ digitChar d ≠ '+' := by
  interval_cases d <;> exact ⟨by decide, by decide, by decide, by decide, by decide⟩

lemma mem_natToDecimal_props {c : Char} {n : Nat} (h : c ∈ natToDecimal n) :
    c.isDigit = true ∧ Char.toUpper c = c ∧ c.isWhitespace = false ∧ c ≠ '-' ∧ c ≠ '+' := by
  obtain ⟨d, hd, rfl⟩ := mem_natToDecimal h
  exact digitChar_props hd

lemma natToDecimal_ne_nil (n : Nat) : natToDecimal n ≠ [] := by
  unfold natToDecimal
  split
  · simp
  · rename_i hn
    rw [decDigits_eq_digits]
    simpa using Nat.digits_ne_nil_iff_ne_zero.mpr hn

lemma decDigitVal_digitChar {d : Nat} (h : d < 10) : decDigitVal (digitChar d) = d := by
  interval_cases d <;> decide

lemma foldr_digitChar_ofDigits (ds : List Nat) (h : ∀ d ∈ ds, d < 10) :
    (ds.map digitChar).foldr (fun c a => a * 10 + decDigitVal c) 0 = Nat.ofDigits 10 ds := by
  induction ds with
  | nil => simp [Nat.ofDigits]
  | cons d rest ih =>
      simp only [List.map_cons, List.foldr_cons, Nat.ofDigits_cons]
      rw [ih (fun x hx => h x (List.mem_cons_of_mem d hx)),
        decDigitVal_digitChar (h d (List.mem_cons_self d rest))]
      ring

lemma parseDecNat_natToDecimal (n : Nat) : parseDecNat (natToDecimal n) = n := by
  unfold natToDecimal
  split
  · rename_i hn
    subst hn
    decide
  · rename_i hn
    rw [decDigits_eq_digits]
    unfold parseDecNat
    rw [List.foldl_reverse]
    rw [foldr_digitChar_ofDigits _ (fun d hd => Nat.digits_lt_base (by norm_num) hd)]
    exact Nat.ofDigits_digits 10 n

lemma parseDecNat_padZeros (w : Nat) (s : List Char) :
    parseDecNat (padZeros w s) = parseDecNat s := by
  unfold padZeros parseDecNat
  rw [List.foldl_append]
  congr 1
  generalize w - s.length = k
  induction k with
  | zero => rfl
  | succ m ih => simpa [List.replicate_succ, decDigitVal] using ih

lemma natToDecimal_length_le {n w : Nat} (hw : 1 ≤ w) (h : n < 10 ^ w) :
    (natToDecimal n).length ≤ w := by
  unfold natToDecimal
  split
  · simpa using hw
  · rename_i hn
    rw [decDigits_eq_digits]
    simp only [List.length_reverse, List.length_map]
    by_contra hlt
    push_neg at hlt
    have h1 : 10 ^ (Nat.digits 10 n).length ≤ 10 * n :=
      Nat.base_pow_length_digits_le 10 n (by norm_num) hn
    have h2 : (10:ℕ) ^ (w + 1) ≤ 10 ^ (Nat.digits 10 n).length :=
      Nat.pow_le_pow_right (by norm_num) hlt
    have h3 : (10:ℕ) ^ (w + 1) = 10 * 10 ^ w := by ring
    omega

lemma natToDecimal_length_gt {n w : Nat} (h : 10 ^ w ≤ n) :
    w < (natToDecimal n).length := by
  unfold natToDecimal
  have hn : n ≠ 0 := by
    have hp : (0:ℕ) < 10 ^ w := pow_pos (by norm_num) w
    omega
  rw [if_neg hn, decDigits_eq_digits]
  simp only [List.length_reverse, List.length_map]
  by_contra hle
  push_neg at hle
  have h1 : n < 10 ^ (Nat.digits 10 n).length := Nat.lt_base_pow_length_digits (by norm_num)
  have h2 : (10:ℕ) ^ (Nat.digits 10 n).length ≤ 10 ^ w := Nat.pow_le_pow_right (by norm_num) hle
  omega

lemma padZeros_length {w : Nat} {s : List Char} (h : s.length ≤ w) :
    (padZeros w s).length = w := by
  simp [padZeros]
  omega

lemma pyZfill_eq_padZeros {w : Nat} {s : List Char}
    (h : ∀ c, s.head? = some c → c ≠ '-' ∧ c ≠ '+') :
    pyZfill w s = padZeros w s := by
  match s with
  | [] => rfl
  | c :: rest =>
      obtain ⟨h1, h2⟩ := h c rfl
      simp [pyZfill, h1, h2]

lemma mem_padZeros {c : Char} {w : Nat} {s : List Char} (h : c ∈ padZeros w s) :
    c = '0' ∨ c ∈ s := by
  unfold padZeros at h
  rcases List.mem_append.mp h with h | h
  · exact Or.inl (List.eq_of_mem_replicate h)
  · exact Or.inr h

/-! ### Helper lemmas: strip, upper, padding -/

lemma dropWhile_eq_self_of_head {l : List Char} {p : Char → Bool}
    (h : ∀ c, l.head? = some c → p c = false) : l.dropWhile p = l := by
  cases l with
  | nil => rfl
  | cons a as => simp [List.dropWhile_cons, h a rfl]

lemma pyStrip_eq_self {l : List Char}
    (hh : ∀ c, l.head? = some c → c.isWhitespace = false)
    (hl : ∀ c, l.getLast? = some c → c.isWhitespace = false) : pyStrip l = l := by
  unfold pyStrip
  have h2 : l.reverse.dropWhile Char.isWhitespace = l.reverse := by
    apply dropWhile_eq_self_of_head
    intro c hc
    exact hl c (by rwa [List.head?_reverse] at hc)
  rw [dropWhile_eq_self_of_head hh, h2, List.reverse_reverse]

lemma dropWhile_replicate_append {p : Char → Bool} {a : Char} (ha : p a = true)
    (k : Nat) (l : List Char) :
    (List.replicate k a ++ l).dropWhile p = l.dropWhile p := by
  induction k with
  | zero => rfl
  | succ m ih => simp [List.replicate_succ, List.dropWhile_cons, ha, ih]

lemma pyStrip_append_spaces {t : List Char} (hne : t ≠ [])
    (hh : ∀ c, t.head? = some c → c.isWhitespace = false)
    (hl : ∀ c, t.getLast? = some c → c.isWhitespace = false) (k : Nat) :
    pyStrip (t ++ List.replicate k ' ') = t := by
  unfold pyStrip
  have h1 : (t ++ List.replicate k ' ').dropWhile Char.isWhitespace
      = t ++ List.replicate k ' ' := by
    apply dropWhile_eq_self_of_head
    intro c hc
    rw [List.head?_append_of_ne_nil _ hne] at hc
    exact hh c hc
  rw [h1, List.reverse_append, List.reverse_replicate,
    dropWhile_replicate_append (by decide : Char.isWhitespace ' ' = true),
    dropWhile_eq_self_of_head (fun c hc => hl c (by rwa [List.head?_reverse] at hc)),
    List.reverse_reverse]

lemma pyUpper_append (a b : List Char) : pyUpper (a ++ b) = pyUpper a ++ pyUpper b := by
  simp [pyUpper]

lemma pyUpper_eq_self {s : List Char} (h : ∀ c ∈ s, Char.toUpper c = c) :
    pyUpper s = s := by
  unfold pyUpper
  induction s with
  | nil => rfl
  | cons a as ih => simp_all

lemma pyUpper_replicate_space (k : Nat) :
    pyUpper (List.replicate k ' ') = List.replicate k ' ' :=
  pyUpper_eq_self (fun c hc => by rw [List.eq_of_mem_replicate hc]; decide)

lemma pyUpper_natToDecimal (n : Nat) : pyUpper (natToDecimal n) = natToDecimal n :=
  pyUpper_eq_self (fun _ hc => (mem_natToDecimal_props hc).2.1)

lemma pyUpper_padZeros_natToDecimal (w n : Nat) :
    pyUpper (padZeros w (natToDecimal n)) = padZeros w (natToDecimal n) := by
  apply pyUpper_eq_self
  intro c hc
  rcases mem_padZeros hc with h | h
  · rw [h]; decide
  · exact (mem_natToDecimal_props h).2.1

/-! ### Helper lemmas: date formatting round-trip -/

lemma mem_pad2 {c : Char} {n : Nat} (h : c ∈ pad2 n) :
    ∃ d, d < 10 ∧ c = digitChar d := by
  rcases mem_padZeros h with h | h
  · exact ⟨0, by norm_num, h⟩
  · exact mem_natToDecimal h

lemma pad2_length {n : Nat} (h : n < 100) : (pad2 n).length = 2 :=
  padZeros_length (natToDecimal_length_le (by norm_num) (by norm_num [h]))

lemma parseDecNat_pad2 (n : Nat) : parseDecNat (pad2 n) = n := by
  unfold pad2
  rw [parseDecNat_padZeros, parseDecNat_natToDecimal]

lemma pad2_upper (n : Nat) : pyUpper (pad2 n) = pad2 n :=
  pyUpper_padZeros_natToDecimal 2 n

lemma daysInMonth_le (y m : Nat) : daysInMonth y m ≤ 31 := by
  unfold daysInMonth
  split_ifs <;> omega

lemma formatYYMMDD_parts_length {d : OCCDate} (hv : validOCCDate d) :
    (pad2 (d.year % 100)).length = 2 ∧ (pad2 d.month).length = 2 ∧
      (pad2 d.day).length = 2 := by
  obtain ⟨_, _, _, hm, _, hd⟩ := hv
  have hdm := daysInMonth_le d.year d.month
  exact ⟨pad2_length (Nat.mod_lt _ (by norm_num)), pad2_length (by omega),
    pad2_length (by omega)⟩

lemma formatYYMMDD_length {d : OCCDate} (hv : validOCCDate d) :
    (formatYYMMDD d).length = 6 := by
  obtain ⟨h1, h2, h3⟩ := formatYYMMDD_parts_length hv
  simp [formatYYMMDD, h1, h2, h3]

lemma mem_formatYYMMDD {c : Char} {d : OCCDate} (h : c ∈ formatYYMMDD d) :
    ∃ k, k < 10 ∧ c = digitChar k := by
  unfold formatYYMMDD at h
  rcases List.mem_append.mp h with h | h
  · rcases List.mem_append.mp h with h | h
    · exact mem_pad2 h
    · exact mem_pad2 h
  · exact mem_pad2 h

lemma formatYYMMDD_all_digits (d : OCCDate) :
    (formatYYMMDD d).all Char.isDigit = true := by
  rw [List.all_eq_true]
  intro c hc
  obtain ⟨k, hk, rfl⟩ := mem_formatYYMMDD hc
  exact (digitChar_props hk).1

lemma formatYYMMDD_upper (d : OCCDate) :
    pyUpper (formatYYMMDD d) = formatYYMMDD d := by
  apply pyUpper_eq_self
  intro c hc
  obtain ⟨k, hk, rfl⟩ := mem_formatYYMMDD hc
  exact (digitChar_props hk).2.1

lemma take_len_append (l r : List Char) : (l ++ r).take l.length = l :=
  List.take_left l r

lemma parseDateYYMMDD_formatYYMMDD {d : OCCDate} (hv : validOCCDate d)
    (hy : 1969 ≤ d.year ∧ d.year ≤ 2068) :
    parseDateYYMMDD (formatYYMMDD d) = some d := by
  obtain ⟨hp1, hp2, hp3⟩ := formatYYMMDD_parts_length hv
  have htake2 : (formatYYMMDD d).take 2 = pad2 (d.year % 100) := by
    unfold formatYYMMDD
    rw [List.append_assoc, ← hp1, List.take_left]
  have hdrop2 : (formatYYMMDD d).drop 2 = pad2 d.month ++ pad2 d.day := by
    unfold formatYYMMDD
    rw [List.append_assoc, ← hp1, List.drop_left]
  have hmid : ((formatYYMMDD d).drop 2).take 2 = pad2 d.month := by
    rw [hdrop2, ← hp2, List.take_left]
  have hdrop4 : (formatYYMMDD d).drop 4 = pad2 d.day := by
    unfold formatYYMMDD
    rw [show (4:Nat) = (pad2 (d.year % 100) ++ pad2 d.month).length by
      simp [hp1, hp2]]
    rw [List.drop_left]
  have hlast : ((formatYYMMDD d).drop 4).take 2 = pad2 d.day := by
    rw [hdrop4, ← hp3, List.take_length]
  obtain ⟨hy1, hy2, hm1, hm2, hd1, hd2⟩ := hv
  have hpivot : pivotY2 (d.year % 100) = d.year := by
    unfold pivotY2
    split_ifs <;> omega
  unfold parseDateYYMMDD
  rw [if_pos ⟨formatYYMMDD_length ⟨hy1, hy2, hm1, hm2, hd1, hd2⟩,
    formatYYMMDD_all_digits d⟩]
  simp only [hmid, hlast, htake2, parseDecNat_pad2, hpivot]
  rw [if_pos ⟨hm1, hm2, hd1, hd2⟩]

lemma getD_append_length (l r : List Char) (c x : Char) :
    (l ++ c :: r).getD l.length x = c := by
  induction l with
  | nil => rfl
  | cons a as ih => simpa using ih


lemma mem_of_getLast?_eq {l : List Char} {c : Char} (h : l.getLast? = some c) :
    c ∈ l := by
  have h' : c ∈ l.getLast? := by rw [h]; rfl
  obtain ⟨hne, hc⟩ := List.mem_getLast?_eq_getLast h'
  rw [hc]
  exact List.getLast_mem hne

lemma pyLjust_length {s : List Char} (h : s.length ≤ 6) :
    (pyLjust 6 s).length = 6 := by
  simp [pyLjust]
  omega

lemma mem_padZeros_natToDecimal_props {c : Char} {w n : Nat}
    (h : c ∈ padZeros w (natToDecimal n)) :
    c.isDigit = true ∧ Char.toUpper c = c ∧ c.isWhitespace = false := by
  rcases mem_padZeros h with h | h
  · subst h
    exact ⟨by decide, by decide, by decide⟩
  · obtain ⟨h1, h2, h3, _⟩ := mem_natToDecimal_props h
    exact ⟨h1, h2, h3⟩

lemma padZeros_natToDecimal_all_digits (w n : Nat) :
    (padZeros w (natToDecimal n)).all Char.isDigit = true := by
  rw [List.all_eq_true]
  exact fun c hc => (mem_padZeros_natToDecimal_props hc).1

/-- Decoding a well-formed 21-character identifier
`ticker ⧺ spaces ⧺ YYMMDD ⧺ flag ⧺ 8 digits` recovers its components: the
core computation shared by the round-trip and flag-validation theorems. -/
lemma occ_to_position_wellformed (ticker : List Char) (d : OCCDate) (m : Nat)
    (pc : Char)
    (htne : ticker ≠ []) (htlen : ticker.length ≤ 6)
    (htup : pyUpper ticker = ticker)
    (hthead : ∀ c, ticker.head? = some c → c.isWhitespace = false)
    (htlast : ∀ c, ticker.getLast? = some c → c.isWhitespace = false)
    (hv : validOCCDate d) (hy1 : 1969 ≤ d.year) (hy2 : d.year ≤ 2068)
    (hm : m < 10 ^ 8)
    (hpcu : Char.toUpper pc = pc) :
    occ_to_position
        (pyLjust 6 ticker ++ formatYYMMDD d ++ [pc] ++ padZeros 8 (natToDecimal m))
      = Except.ok
        { ticker := ticker, expiry := d, strike := (m : ℚ) / 1000,
          optionType := if pc = 'P' then "put".toList else "call".toList,
          occSymbol :=
            pyLjust 6 ticker ++ formatYYMMDD d ++ [pc] ++ padZeros 8 (natToDecimal m) } := by
  obtain ⟨T6, hT6⟩ : ∃ x, pyLjust 6 ticker = x := ⟨_, rfl⟩
  obtain ⟨D6, hD6⟩ : ∃ x, formatYYMMDD d = x := ⟨_, rfl⟩
  obtain ⟨S8, hS8⟩ : ∃ x, padZeros 8 (natToDecimal m) = x := ⟨_, rfl⟩
  have hT6len : T6.length = 6 := by rw [← hT6]; exact pyLjust_length htlen
  have hD6len : D6.length = 6 := by rw [← hD6]; exact formatYYMMDD_length hv
  have hS8len : S8.length = 8 := by
    rw [← hS8]
    exact padZeros_length (natToDecimal_length_le (by norm_num) hm)
  have hT6ne : T6 ≠ [] := by
    intro h
    rw [h] at hT6len
    simp at hT6len
  have hS8ne : S8 ≠ [] := by
    intro h
    rw [h] at hS8len
    simp at hS8len
  rw [hT6, hD6, hS8]
  have henclen : (T6 ++ D6 ++ [pc] ++ S8).length = 21 := by
    simp [List.length_append, hT6len, hD6len, hS8len]
  have hupper : pyUpper (T6 ++ D6 ++ [pc] ++ S8) = T6 ++ D6 ++ [pc] ++ S8 := by
    have h1 : pyUpper T6 = T6 := by
      rw [← hT6]
      unfold pyLjust
      rw [pyUpper_append, htup, pyUpper_replicate_space]
    have h2 : pyUpper [pc] = [pc] := by
      simp [pyUpper, hpcu]
    have h3 : pyUpper D6 = D6 := by rw [← hD6]; exact formatYYMMDD_upper d
    have h4 : pyUpper S8 = S8 := by rw [← hS8]; exact pyUpper_padZeros_natToDecimal 8 m
    rw [pyUpper_append, pyUpper_append, pyUpper_append, h1, h2, h3, h4]
  have hstrip : pyStrip (T6 ++ D6 ++ [pc] ++ S8) = T6 ++ D6 ++ [pc] ++ S8 := by
    apply pyStrip_eq_self
    · intro c hc
      rw [List.append_assoc, List.append_assoc,
        List.head?_append_of_ne_nil _ hT6ne, ← hT6] at hc
      unfold pyLjust at hc
      rw [List.head?_append_of_ne_nil _ htne] at hc
      exact hthead c hc
    · intro c hc
      rw [List.getLast?_append_of_ne_nil _ hS8ne] at hc
      have hmem : c ∈ S8 := mem_of_getLast?_eq hc
      rw [← hS8] at hmem
      exact (mem_padZeros_natToDecimal_props hmem).2.2
  have hdate_slice : List.take 6 (List.drop 6 (T6 ++ D6 ++ [pc] ++ S8)) = D6 := by
    rw [List.append_assoc, List.append_assoc, ← hT6len, List.drop_left, hT6len,
      ← hD6len, List.take_left]
  have hstrike_slice : List.take 8 (List.drop 13 (T6 ++ D6 ++ [pc] ++ S8)) = S8 := by
    rw [show (13:Nat) = (T6 ++ D6 ++ [pc]).length by
        simp [List.length_append, hT6len, hD6len],
      List.drop_left, ← hS8len, List.take_length]
  have hticker_slice : List.take 6 (T6 ++ D6 ++ [pc] ++ S8) = T6 := by
    rw [List.append_assoc, List.append_assoc, ← hT6len, List.take_left]
  have hgetD : (T6 ++ D6 ++ [pc] ++ S8).getD 12 ' ' = pc := by
    rw [show T6 ++ D6 ++ [pc] ++ S8 = (T6 ++ D6) ++ pc :: S8 by simp,
      show (12:Nat) = (T6 ++ D6).length by simp [List.length_append, hT6len, hD6len]]
    exact getD_append_length _ _ _ _
  have hparseS8 : parseDigitsInt S8 = some m := by
    unfold parseDigitsInt
    rw [if_pos ⟨hS8ne, by rw [← hS8]; exact padZeros_natToDecimal_all_digits 8 m⟩]
    rw [← hS8, parseDecNat_padZeros, parseDecNat_natToDecimal]
  have hstrip_ticker : pyStrip T6 = ticker := by
    rw [← hT6]
    unfold pyLjust
    exact pyStrip_append_spaces htne hthead htlast _
  have hdate_parse : parseDateYYMMDD D6 = some d := by
    rw [← hD6]
    exact parseDateYYMMDD_formatYYMMDD hv ⟨hy1, hy2⟩
  simp only [occ_to_position]
  rw [hupper, hstrip, if_neg (by rw [henclen]; omega), hdate_slice, hdate_parse,
    hstrike_slice, hparseS8, hticker_slice, hstrip_ticker, hgetD]

lemma putCallFlag_put {cls : List Char}
    (h : containsSeq ("put".toList) (pyLower cls) = true) :
    putCallFlag cls = some 'P' := by
  simp only [putCallFlag]
  rw [if_pos h]

lemma putCallFlag_call {cls : List Char}
    (hp : containsSeq ("put".toList) (pyLower cls) = false)
    (hc : containsSeq ("call".toList) (pyLower cls) = true) :
    putCallFlag cls = some 'C' := by
  simp only [putCallFlag]
  rw [if_neg (by rw [hp]; decide), if_pos hc]

lemma position_to_occ_eval {t : List Char} {d : OCCDate} {q : ℚ}
    {cls : List Char} {pc : Char} (h : putCallFlag cls = some pc) :
    position_to_occ t d q cls = Except.ok
      (pyLjust 6 (pyUpper t) ++ formatYYMMDD d ++ [pc] ++
        pyZfill 8 (intToDecimal (pyTrunc (q * 1000)))) := by
  unfold position_to_occ
  rw [h]

lemma strike_digits_of_milli (m : Nat) :
    pyZfill 8 (intToDecimal (pyTrunc ((m : ℚ) / 1000 * 1000)))
      = padZeros 8 (natToDecimal m) := by
  have hq : ((m : ℚ) / 1000) * 1000 = (m : ℚ) := div_mul_cancel₀ _ (by norm_num)
  rw [hq]
  unfold pyTrunc
  rw [if_pos (Nat.cast_nonneg m), Int.floor_natCast]
  unfold intToDecimal
  rw [if_neg (not_lt.mpr (by positivity)), Int.toNat_natCast]
  apply pyZfill_eq_padZeros
  intro c hc
  have hmem : c ∈ natToDecimal m := List.mem_of_mem_head? (by simp [hc])
  obtain ⟨_, _, _, h4, h5⟩ := mem_natToDecimal_props hmem
  exact ⟨h4, h5⟩

/-- C1 (amended): round-trip law of the Symbol Codec. For a nonempty ticker
of at most 6 characters that is already uppercase and has no surrounding
whitespace, a calendar date whose year lies in the 1969–2068 window of the
`%y` two-digit-year pivot, a strike that is an exact multiple of 1/1000
below 100000, and an option-class label containing `put` or `call`, decoding
the encoding returns the same ticker, expiry date and strike, and the
flag-level option class of the label (`put` when the label contains `put`,
else `call`). -/
theorem symbol_codec_roundtrip
    (ticker : List Char) (d : OCCDate) (m : Nat) (cls : List Char)
    (htne : ticker ≠ []) (htlen : ticker.length ≤ 6)
    (htup : pyUpper ticker = ticker)
    (hthead : ∀ c, ticker.head? = some c → c.isWhitespace = false)
    (htlast : ∀ c, ticker.getLast? = some c → c.isWhitespace = false)
    (hv : validOCCDate d) (hy1 : 1969 ≤ d.year) (hy2 : d.year ≤ 2068)
    (hm : m < 10 ^ 8)
    (hcls : containsSeq ("put".toList) (pyLower cls) = true ∨
      containsSeq ("call".toList) (pyLower cls) = true) :
    ∃ enc, position_to_occ ticker d ((m : ℚ) / 1000) cls = Except.ok enc ∧
      occ_to_position enc = Except.ok
        { ticker := ticker, expiry := d, strike := (m : ℚ) / 1000,
          optionType := if containsSeq ("put".toList) (pyLower cls) = true
            then "put".toList else "call".toList,
          occSymbol := enc } := by
  by_cases hput : containsSeq ("put".toList) (pyLower cls) = true
  · refine ⟨pyLjust 6 ticker ++ formatYYMMDD d ++ ['P'] ++ padZeros 8 (natToDecimal m),
      ?_, ?_⟩
    · rw [position_to_occ_eval (putCallFlag_put hput), htup, strike_digits_of_milli]
    · rw [if_pos hput]
      have h := occ_to_position_wellformed ticker d m 'P' htne htlen htup hthead htlast
        hv hy1 hy2 hm (by decide)
      simpa using h
  · have hcall : containsSeq ("call".toList) (pyLower cls) = true :=
      hcls.resolve_left hput
    refine ⟨pyLjust 6 ticker ++ formatYYMMDD d ++ ['C'] ++ padZeros 8 (natToDecimal m),
      ?_, ?_⟩
    · rw [position_to_occ_eval
        (putCallFlag_call (Bool.eq_false_iff.mpr (by simpa using hput)) hcall),
        htup, strike_digits_of_milli]
    · rw [if_neg hput]
      have h := occ_to_position_wellformed ticker d m 'C' htne htlen htup hthead htlast
        hv hy1 hy2 hm (by decide)
      simpa using h

/-- Witness for C1: the round-trip at ticker `AAPL`, expiry 2026-02-21,
strike 200.000 (200000/1000), class label `short_put`. -/
theorem symbol_codec_roundtrip_witness :
    ∃ enc, position_to_occ "AAPL".toList ⟨2026, 2, 21⟩ (((200000 : ℕ) : ℚ) / 1000)
        "short_put".toList = Except.ok enc ∧
      occ_to_position enc = Except.ok
        { ticker := "AAPL".toList, expiry := ⟨2026, 2, 21⟩,
          strike := ((200000 : ℕ) : ℚ) / 1000,
          optionType := if containsSeq ("put".toList) (pyLower "short_put".toList) = true
            then "put".toList else "call".toList,
          occSymbol := enc } :=
  symbol_codec_roundtrip "AAPL".toList ⟨2026, 2, 21⟩ 200000 "short_put".toList
    (by decide) (by decide) (by decide)
    (by
      intro c hc
      rw [show ("AAPL".toList).head? = some 'A' from rfl] at hc
      cases hc
      decide)
    (by
      intro c hc
      rw [show ("AAPL".toList).getLast? = some 'L' from rfl] at hc
      cases hc
      decide)
    (by decide) (by decide) (by decide) (by decide) (Or.inl (by decide))

/-- Counterexample to C1 as stated: at ticker `aapl` (6 characters or fewer),
calendar date 1950-02-21, strike 200.000 and class label `short_put`, the
decode of the encode returns ticker `AAPL` (uppercased, not the input),
expiry 2050-02-21 (the `%y` pivot maps year 50 to 2050, not 1950), and
option class `put` (the flag-level class, not the label `short_put`). -/
theorem symbol_codec_roundtrip_counterexample :
    position_to_occ "aapl".toList ⟨1950, 2, 21⟩ (((200000 : ℕ) : ℚ) / 1000)
        "short_put".toList = Except.ok "AAPL  500221P00200000".toList ∧
    occ_to_position "AAPL  500221P00200000".toList = Except.ok
      { ticker := "AAPL".toList, expiry := ⟨2050, 2, 21⟩,
        strike := ((200000 : ℕ) : ℚ) / 1000, optionType := "put".toList,
        occSymbol := "AAPL  500221P00200000".toList } ∧
    "AAPL".toList ≠ "aapl".toList ∧ (⟨2050, 2, 21⟩ : OCCDate) ≠ ⟨1950, 2, 21⟩ ∧
    "put".toList ≠ "short_put".toList := by
  refine ⟨?_, ?_, by decide, by decide, by decide⟩
  · rw [position_to_occ_eval (putCallFlag_put (by decide)), strike_digits_of_milli]
    decide
  · have h := occ_to_position_wellformed "AAPL".toList ⟨2050, 2, 21⟩ 200000 'P'
      (by decide) (by decide) (by decide)
      (by
        intro c hc
        rw [show ("AAPL".toList).head? = some 'A' from rfl] at hc
        cases hc
        decide)
      (by
        intro c hc
        rw [show ("AAPL".toList).getLast? = some 'L' from rfl] at hc
        cases hc
        decide)
      (by decide) (by decide) (by decide) (by decide) (by decide)
    rw [show "AAPL  500221P00200000".toList
        = pyLjust 6 "AAPL".toList ++ formatYYMMDD ⟨2050, 2, 21⟩ ++ ['P']
            ++ padZeros 8 (natToDecimal 200000) from by decide]
    simpa using h

/-- C2 (amended): for every strike, encoding embeds
`str(int(strike * 1000)).zfill(8)` — truncation toward zero, not `round` —
and a scaled strike of more than 8 digits is still emitted, without error,
as a field longer than 8 characters (silent overflow). -/
theorem strike_encoding_truncates (t : List Char) (d : OCCDate) (strike : ℚ) :
    position_to_occ t d strike ("put".toList)
      = Except.ok (pyLjust 6 (pyUpper t) ++ formatYYMMDD d ++ ['P'] ++
          pyZfill 8 (intToDecimal (pyTrunc (strike * 1000)))) ∧
    (∀ m : Nat, 10 ^ 8 ≤ m → 8 < (pyZfill 8 (natToDecimal m)).length) := by
  constructor
  · exact position_to_occ_eval (putCallFlag_put (by decide))
  · intro m hm
    have h1 : 8 < (natToDecimal m).length := natToDecimal_length_gt hm
    have hz : pyZfill 8 (natToDecimal m) = padZeros 8 (natToDecimal m) := by
      apply pyZfill_eq_padZeros
      intro c hc
      have hmem : c ∈ natToDecimal m := List.mem_of_mem_head? (by simp [hc])
      obtain ⟨_, _, _, h4, h5⟩ := mem_natToDecimal_props hmem
      exact ⟨h4, h5⟩
    rw [hz]
    simp only [padZeros, List.length_append, List.length_replicate]
    omega

/-- Witness for C2: a scaled strike of exactly `10 ^ 8` overflows the
8-digit field and is emitted with 9 characters. -/
theorem strike_encoding_truncates_witness :
    8 < (pyZfill 8 (natToDecimal (10 ^ 8))).length :=
  (strike_encoding_truncates [] ⟨2026, 1, 1⟩ 0).2 (10 ^ 8) (le_refl _)

/-- Counterexample to C2 as stated: at strike 3/16 = 0.1875 the scaled value
is 187.5; the code's `int` truncates it to 187 (emitting `00000187`), while
the claimed `round(strike * 1000)` would give 188. -/
theorem strike_encoding_truncates_counterexample :
    pyTrunc ((3 / 16 : ℚ) * 1000) = 187 ∧ pyRound ((3 / 16 : ℚ) * 1000) = 188 ∧
    position_to_occ "A".toList ⟨2026, 2, 21⟩ (3 / 16) "put".toList
      = Except.ok "A     260221P00000187".toList := by
  have hq : (3 / 16 : ℚ) * 1000 = 375 / 2 := by norm_num
  have hfloor : ⌊(375 / 2 : ℚ)⌋ = 187 := by
    rw [Int.floor_eq_iff]
    constructor <;> norm_num
  have htrunc : pyTrunc ((3 / 16 : ℚ) * 1000) = 187 := by
    unfold pyTrunc
    rw [hq, if_pos (by norm_num), hfloor]
  refine ⟨htrunc, ?_, ?_⟩
  · unfold pyRound
    rw [hq, hfloor]
    norm_num
  · rw [position_to_occ_eval (putCallFlag_put (by decide)), htrunc]
    decide

/-- C10 (amended): decode does not validate the class-flag character. For
every 21-character input that survives strip, whose embedded date parses and
whose strike field is a digit string, decoding succeeds for any flag
character whatsoever; the option type is `put` exactly when the uppercased
flag is `P` and `call` in every other case (including digits and arbitrary
letters). -/
theorem occ_decode_flag_not_validated (occ : List Char) (d : OCCDate)
    (hstrip : pyStrip (pyUpper occ) = pyUpper occ)
    (hlen : occ.length = 21)
    (hdate : parseDateYYMMDD (((pyUpper occ).drop 6).take 6) = some d)
    (hstrike : ((pyUpper occ).drop 13).take 8 ≠ [] ∧
      (((pyUpper occ).drop 13).take 8).all Char.isDigit = true) :
    occ_to_position occ = Except.ok
      { ticker := pyStrip ((pyUpper occ).take 6), expiry := d,
        strike := (parseDecNat (((pyUpper occ).drop 13).take 8) : ℚ) / 1000,
        optionType := if (pyUpper occ).getD 12 ' ' = 'P'
          then "put".toList else "call".toList,
        occSymbol := occ } := by
  have hlen2 : (pyUpper occ).length = 21 := by simpa [pyUpper] using hlen
  simp only [occ_to_position]
  rw [hstrip, if_neg (by rw [hlen2]; omega), hdate]
  unfold parseDigitsInt
  rw [if_pos hstrike]

/-- Witness for C10: the flag character `X` decodes without error and yields
option type `call`. -/
theorem occ_decode_flag_not_validated_witness :
    occ_to_position "AAPL  260221X00200000".toList = Except.ok
      { ticker := pyStrip ((pyUpper "AAPL  260221X00200000".toList).take 6),
        expiry := ⟨2026, 2, 21⟩,
        strike := (parseDecNat (((pyUpper "AAPL  260221X00200000".toList).drop 13).take 8) : ℚ)
          / 1000,
        optionType := if (pyUpper "AAPL  260221X00200000".toList).getD 12 ' ' = 'P'
          then "put".toList else "call".toList,
        occSymbol := "AAPL  260221X00200000".toList } :=
  occ_decode_flag_not_validated _ ⟨2026, 2, 21⟩ (by decide) (by decide) (by decide)
    ⟨by decide, by decide⟩

/-- Counterexample to C10 as stated: a 21-character input whose embedded
date parses and whose flag is not `P` can still fail to decode — when the
strike field is not numeric, `int(strike_str)` raises, so the input does not
decode without error. -/
theorem occ_decode_flag_not_validated_counterexample :
    ("AAPL  260221XZZZZZZZZ".toList).length = 21 ∧
    parseDateYYMMDD (((pyUpper "AAPL  260221XZZZZZZZZ".toList).drop 6).take 6)
      = some ⟨2026, 2, 21⟩ ∧
    ("AAPL  260221XZZZZZZZZ".toList).getD 12 ' ' ≠ 'P' ∧
    occ_to_position "AAPL  260221XZZZZZZZZ".toList
      = Except.error "invalid literal for int" :=
  ⟨by decide, by decide, by decide, by decide⟩

lemma subscribe_options_stream_client (upstreamOk : Bool) (symbols : List String)
    (st : StreamerState) :
    (subscribe_options upstreamOk symbols st).1.stream_client = st.stream_client ∧
    (subscribe_options upstreamOk symbols st).1.subscribed_equities
      = st.subscribed_equities := by
  simp only [subscribe_options]
  split_ifs <;> exact ⟨rfl, rfl⟩

lemma subscribe_options_covers (symbols : List String) (st : StreamerState)
    (hs : st.stream_client.isSome = true) :
    symbols.filter
      (fun s => !((subscribe_options true symbols st).1.subscribed_options.contains s))
      = [] := by
  match hc : st.stream_client with
  | none => rw [hc] at hs; cases hs
  | some v =>
      unfold subscribe_options
      rw [if_neg (by rw [hc]; simp)]
      by_cases hemp :
          (symbols.filter (fun s => !st.subscribed_options.contains s)).isEmpty = true
      · rw [if_pos hemp]
        rw [List.isEmpty_iff] at hemp
        exact hemp
      · rw [if_neg hemp, if_pos rfl]
        rw [List.filter_eq_nil_iff]
        intro s hmem
        have hmemb : s ∈ st.subscribed_options
            ++ symbols.filter (fun x => !st.subscribed_options.contains x) := by
          by_cases hin : s ∈ st.subscribed_options
          · exact List.mem_append_left _ hin
          · exact List.mem_append_right _ (List.mem_filter.mpr ⟨hmem, by simp [hin]⟩)
        simp [hmemb]
        exact fun hns => ⟨hmem, hns⟩

lemma subscribe_options_noop {symbols : List String} {st : StreamerState}
    (hs : st.stream_client.isNone = false)
    (hf : symbols.filter (fun s => !st.subscribed_options.contains s) = []) :
    subscribe_options true symbols st = (st, []) := by
  simp only [subscribe_options]
  rw [hf, if_neg (by rw [hs]; decide)]
  simp

/-- C3 (code bug): when the receive loop exits while a session handle is
held, the handle is not cleared — `stream_message_loop` never assigns
`stream_client = None` despite its `global stream_client` declaration — so
the next `reconnect_loop` iteration observes a session and makes no
reconnect attempt, contrary to the documented "attempt to reconnect if
disconnected" intent and to the claim. -/
theorem stream_message_loop_exit_keeps_handle (st : StreamerState) (h : Nat)
    (hs : st.stream_client = some h) (connectOk : Bool) (fresh : Nat) :
    (stream_message_loop_exit st).stream_client = some h ∧
    (reconnect_loop_iteration connectOk fresh (stream_message_loop_exit st)).2
      = false := by
  refine ⟨hs, ?_⟩
  simp [reconnect_loop_iteration, stream_message_loop_exit, hs]

/-- Witness for C3: a state holding session handle 0 whose receive loop
exits; the poll makes no connect attempt. -/
theorem stream_message_loop_exit_keeps_handle_witness :
    (stream_message_loop_exit ⟨[], [], some 0⟩).stream_client = some 0 ∧
    (reconnect_loop_iteration true 1 (stream_message_loop_exit ⟨[], [], some 0⟩)).2
      = false :=
  stream_message_loop_exit_keeps_handle ⟨[], [], some 0⟩ 0 rfl true 1

/-- C4 (amended): the status response's `connected` field is true exactly
when a live stream-client handle exists, and its options/equities fields
contain exactly the tracked identifiers — in set-iteration order, without
sorting. -/
theorem get_status_fields (st : StreamerState) :
    ((get_status st).connected = true ↔ ∃ h, st.stream_client = some h) ∧
    (∀ s, s ∈ (get_status st).subscribed_options ↔ s ∈ st.subscribed_options) ∧
    (∀ s, s ∈ (get_status st).subscribed_equities ↔ s ∈ st.subscribed_equities) := by
  refine ⟨?_, fun s => Iff.rfl, fun s => Iff.rfl⟩
  simp [get_status, Option.isSome_iff_exists]

/-- Counterexample to C4 as stated: the tracked option set can iterate as
`["B", "A"]` (reachable by one subscribe call), and `get_status` then
returns that list unsorted — the code applies no `sorted()`. -/
theorem get_status_not_sorted_counterexample :
    (subscribe_options true ["B", "A"] ⟨[], [], some 0⟩).1
      = ⟨["B", "A"], [], some 0⟩ ∧
    (get_status ⟨["B", "A"], [], some 0⟩).connected = true ∧
    (get_status ⟨["B", "A"], [], some 0⟩).subscribed_options = ["B", "A"] ∧
    ¬ List.Sorted (fun a b => a ≤ b)
      (get_status ⟨["B", "A"], [], some 0⟩).subscribed_options := by
  refine ⟨by decide, rfl, rfl, ?_⟩
  simp [get_status, List.Sorted, List.pairwise_cons]
  decide

/-- C5: atomicity of subscription updates — when the upstream call fails
(raises), the tracked state is exactly the state before the operation for
subscribe (initial or add) and unsubscribe alike, and at most one upstream
call was issued (no retry). -/
theorem upstream_failure_leaves_sets_unchanged (symbols : List String)
    (st : StreamerState) :
    (subscribe_options false symbols st).1 = st ∧
    (subscribe_equities false symbols st).1 = st ∧
    (unsubscribe_options false symbols st).1 = st ∧
    (subscribe_options false symbols st).2.length ≤ 1 ∧
    (subscribe_equities false symbols st).2.length ≤ 1 ∧
    (unsubscribe_options false symbols st).2.length ≤ 1 := by
  refine ⟨?_, ?_, ?_, ?_, ?_, ?_⟩ <;>
    · simp only [subscribe_options, subscribe_equities, unsubscribe_options]
      split_ifs <;> simp_all

/-- C6: idempotence of `subscribe_options` — over a live session with the
upstream call succeeding, two identical requests issue at most one upstream
call in total; the second invocation computes an empty new-symbol list and
is a no-op. -/
theorem subscribe_options_idempotent (symbols : List String) (st : StreamerState) :
    (subscribe_options true symbols st).2.length
        + (subscribe_options true symbols (subscribe_options true symbols st).1).2.length
      ≤ 1 ∧
    (subscribe_options true symbols (subscribe_options true symbols st).1).1
      = (subscribe_options true symbols st).1 ∧
    (subscribe_options true symbols (subscribe_options true symbols st).1).2 = [] ∧
    (st.stream_client.isSome = true →
      symbols.filter
        (fun s => !((subscribe_options true symbols st).1.subscribed_options.contains s))
        = []) := by
  by_cases hs : st.stream_client.isSome = true
  · have hcov := subscribe_options_covers symbols st hs
    have hsc := (subscribe_options_stream_client true symbols st).1
    have hnn : (subscribe_options true symbols st).1.stream_client.isNone = false := by
      rw [hsc]
      cases hopt : st.stream_client with
      | none => rw [hopt] at hs; cases hs
      | some v => rfl
    have hr2 : subscribe_options true symbols (subscribe_options true symbols st).1
        = ((subscribe_options true symbols st).1, []) :=
      subscribe_options_noop hnn hcov
    have hr1len : (subscribe_options true symbols st).2.length ≤ 1 := by
      simp only [subscribe_options]
      split_ifs <;> simp
    rw [hr2]
    refine ⟨by simpa using hr1len, rfl, rfl, fun _ => hcov⟩
  · have hnone : st.stream_client = none := by
      cases hc : st.stream_client with
      | none => rfl
      | some v => rw [hc] at hs; simp at hs
    have hr1 : subscribe_options true symbols st = (st, []) := by
      simp only [subscribe_options]
      rw [if_pos (by rw [hnone]; rfl)]
    refine ⟨?_, ?_, ?_, fun hcon => absurd hcon hs⟩ <;> simp [hr1]

/-- Witness for C6: over a live empty state, a second identical request for
`["X"]` computes an empty new-symbol list. -/
theorem subscribe_options_idempotent_witness :
    (["X"].filter
      (fun s => !((subscribe_options true ["X"] ⟨[], [], some 0⟩).1.subscribed_options.contains s)))
      = [] :=
  (subscribe_options_idempotent ["X"] ⟨[], [], some 0⟩).2.2.2 (by decide)

/-- C7: disjoint removal — `unsubscribe_options` only ever removes symbols
that are both requested and currently subscribed, never errors on (simply
ignores) a requested symbol that is not subscribed, and is a complete no-op
(state unchanged, no upstream call) when the intersection is empty; the
equity set and the session handle are never touched. -/
theorem unsubscribe_options_disjoint_removal (upstreamOk : Bool)
    (symbols : List String) (st : StreamerState) :
    (∀ x, x ∈ (unsubscribe_options upstreamOk symbols st).1.subscribed_options →
      x ∈ st.subscribed_options) ∧
    (∀ x, x ∈ st.subscribed_options →
      x ∉ (unsubscribe_options upstreamOk symbols st).1.subscribed_options →
      x ∈ symbols) ∧
    (symbols.filter (fun s => st.subscribed_options.contains s) = [] →
      unsubscribe_options upstreamOk symbols st = (st, [])) ∧
    (unsubscribe_options upstreamOk symbols st).1.subscribed_equities
      = st.subscribed_equities ∧
    (unsubscribe_options upstreamOk symbols st).1.stream_client
      = st.stream_client := by
  simp only [unsubscribe_options]
  split_ifs with h1 h2 h3
  · exact ⟨fun x hx => hx, fun x hx hnx => absurd hx hnx, fun _ => rfl, rfl, rfl⟩
  · exact ⟨fun x hx => hx, fun x hx hnx => absurd hx hnx, fun _ => rfl, rfl, rfl⟩
  · refine ⟨?_, ?_, ?_, rfl, rfl⟩
    · intro x hx
      exact (List.mem_filter.mp hx).1
    · intro x hx hnx
      have hcont : (symbols.filter (fun s => st.subscribed_options.contains s)).contains x
          = true := by
        by_contra hc
        have hc2 : x ∈ symbols → x ∉ st.subscribed_options := by simpa using hc
        refine hnx (List.mem_filter.mpr ⟨hx, by simp; exact not_or_of_imp hc2⟩)
      have hmem : x ∈ symbols.filter (fun s => st.subscribed_options.contains s) := by
        simpa using hcont
      exact (List.mem_filter.mp hmem).1
    · intro hnil
      rw [hnil] at h2
      exact absurd rfl h2
  · refine ⟨fun x hx => hx, fun x hx hnx => absurd hx hnx, ?_, rfl, rfl⟩
    intro hnil
    rw [hnil] at h2
    exact absurd rfl h2

/-- Witness for C7: releasing `["X"]` when only `"A"` is subscribed is a
complete no-op. -/
theorem unsubscribe_options_disjoint_removal_witness :
    unsubscribe_options true ["X"] ⟨["A"], [], some 0⟩ = (⟨["A"], [], some 0⟩, []) :=
  (unsubscribe_options_disjoint_removal true ["X"] ⟨["A"], [], some 0⟩).2.2.1
    (by decide)

lemma broadcast_send_fold_spec (broken : Nat → Bool) :
    ∀ (l s d : List Nat), broadcast_send_fold broken l (s, d)
      = (s ++ l.filter (fun c => !broken c), d ++ l.filter broken) := by
  intro l
  induction l with
  | nil => intro s d; simp [broadcast_send_fold]
  | cons c rest ih =>
      intro s d
      by_cases hb : broken c = true
      · simp [broadcast_send_fold, hb, ih]
      · rw [Bool.not_eq_true] at hb
        simp [broadcast_send_fold, hb, ih]

/-- C8: fan-out independence of broadcast — the message is delivered to
exactly the consumers whose send does not fail, broken consumers (and only
they) are removed from the active set, and in particular with consumers
1, 2, 3 where consumer 2's channel is broken, consumers 1 and 3 both
receive the message and 2 alone is removed. -/
theorem broadcast_fanout_independent (clients : List Nat) (broken : Nat → Bool) :
    (broadcast_to_node clients broken).1 = clients.filter (fun c => !broken c) ∧
    (broadcast_to_node clients broken).2 = clients.filter (fun c => !broken c) ∧
    (broadcast_to_node [1, 2, 3] (fun c => c == 2)).1 = [1, 3] ∧
    (broadcast_to_node [1, 2, 3] (fun c => c == 2)).2 = [1, 3] := by
  refine ⟨?_, ?_, by decide, by decide⟩
  · unfold broadcast_to_node
    by_cases he : clients.isEmpty = true
    · rw [if_pos he]
      rw [List.isEmpty_iff] at he
      rw [he]
      rfl
    · rw [if_neg he]
      simp only [broadcast_send_fold_spec, List.nil_append]
  · unfold broadcast_to_node
    by_cases he : clients.isEmpty = true
    · rw [if_pos he]
      rw [List.isEmpty_iff] at he
      rw [he]
      rfl
    · rw [if_neg he]
      simp only [broadcast_send_fold_spec, List.nil_append]
      apply List.filter_congr
      intro c hc
      by_cases hb : broken c = true
      · have hmem : c ∈ clients.filter broken := List.mem_filter.mpr ⟨hc, hb⟩
        simp [hb, hmem]
      · rw [Bool.not_eq_true] at hb
        have hnmem : c ∉ clients.filter broken := by
          intro hmem
          rw [(List.mem_filter.mp hmem).2] at hb
          cases hb
        simp [hb, hnmem]

lemma mem_keys_filtered_map {tbl : List (String × String)} {item : RawItem}
    {k : String}
    (h : k ∈ ((tbl.map (fun p => (p.1, item p.2))).filter
      (fun p => p.2.isSome)).map Prod.fst) :
    ∃ r, (k, r) ∈ tbl ∧ (item r).isSome = true := by
  obtain ⟨p, hp, hpk⟩ := List.mem_map.mp h
  obtain ⟨hpm, hps⟩ := List.mem_filter.mp hp
  obtain ⟨q, hq, hqe⟩ := List.mem_map.mp hpm
  refine ⟨q.2, ?_, ?_⟩
  · have hqk : q.1 = k := by rw [← hpk, ← hqe]
    rw [← hqk, Prod.mk.eta]
    exact hq
  · have h2 : p.2 = item q.2 := by rw [← hqe]
    rw [← h2]
    exact hps

lemma table_key_unique : ∀ (l : List (String × String)), (l.map Prod.fst).Nodup →
    ∀ {k r r' : String}, (k, r) ∈ l → (k, r') ∈ l → r = r' := by
  intro l
  induction l with
  | nil =>
      intro _ k r r' h1 _
      cases h1
  | cons p rest ih =>
      intro hnd k r r' h1 h2
      rw [List.map_cons, List.nodup_cons] at hnd
      obtain ⟨hp, hrest⟩ := hnd
      rcases List.mem_cons.mp h1 with h1 | h1 <;> rcases List.mem_cons.mp h2 with h2 | h2
      · have hrr := h1.trans h2.symm
        simp only [Prod.mk.injEq] at hrr
        exact hrr.2
      · exfalso
        apply hp
        rw [← h1]
        exact List.mem_map.mpr ⟨(k, r'), h2, rfl⟩
      · exfalso
        apply hp
        rw [← h2]
        exact List.mem_map.mpr ⟨(k, r), h1, rfl⟩
      · exact ih hrest h1 h2

/-- C9 (amended): null-pruning of normalized quotes. No emitted quote record
ever carries an absent (`None`) value; every mapped field other than
`symbol` whose raw value is absent is omitted from the output; but the
`symbol` key itself is always emitted — `item.get('key',
item.get('SYMBOL', ''))` defaults it to the empty string even when both raw
keys are absent. -/
theorem quote_normalizer_null_pruning (item : RawItem) :
    (∀ p ∈ handle_option_quote_item item, p.2 ≠ none) ∧
    (∀ p ∈ handle_equity_quote_item item, p.2 ≠ none) ∧
    (∀ k r, (k, r) ∈ optionFieldTable → item r = none →
      k ∉ (handle_option_quote_item item).map Prod.fst) ∧
    (∀ k r, (k, r) ∈ equityFieldTable → item r = none →
      k ∉ (handle_equity_quote_item item).map Prod.fst) ∧
    "symbol" ∈ (handle_option_quote_item item).map Prod.fst ∧
    "symbol" ∈ (handle_equity_quote_item item).map Prod.fst := by
  have hno : ∀ (l : List (String × Option String)), ∀ p ∈ pruneNone l, p.2 ≠ none := by
    intro l p hp hn
    have hs := (List.mem_filter.mp hp).2
    rw [hn] at hs
    cases hs
  have homit : ∀ (tbl : List (String × String)), (tbl.map Prod.fst).Nodup →
      "symbol" ∉ tbl.map Prod.fst →
      ∀ k r, (k, r) ∈ tbl → item r = none →
      k ∉ (pruneNone (mkQuoteRecord tbl item)).map Prod.fst := by
    intro tbl hnd hsym k r hkr hnone hk
    unfold mkQuoteRecord pruneNone at hk
    rw [List.filter_cons_of_pos (by simp)] at hk
    rw [List.map_cons] at hk
    rcases List.mem_cons.mp hk with hk | hk
    · have hk2 : k = "symbol" := hk
      subst hk2
      exact hsym (List.mem_map.mpr ⟨("symbol", r), hkr, rfl⟩)
    · obtain ⟨r', hr', hsome⟩ := mem_keys_filtered_map hk
      rw [table_key_unique tbl hnd hr' hkr, hnone] at hsome
      cases hsome
  have hsymmem : ∀ (tbl : List (String × String)),
      "symbol" ∈ (pruneNone (mkQuoteRecord tbl item)).map Prod.fst := by
    intro tbl
    unfold mkQuoteRecord pruneNone
    rw [List.filter_cons_of_pos (by simp), List.map_cons]
    exact List.mem_cons_self _ _
  exact ⟨hno _, hno _,
    homit optionFieldTable (by decide) (by decide),
    homit equityFieldTable (by decide) (by decide),
    hsymmem optionFieldTable, hsymmem equityFieldTable⟩

/-- Witness for C9: with an entirely empty raw item, the `bid` field (raw
key `BID_PRICE` absent) is omitted from the normalized option quote. -/
theorem quote_normalizer_null_pruning_witness :
    "bid" ∉ (handle_option_quote_item (fun _ => none)).map Prod.fst :=
  (quote_normalizer_null_pruning (fun _ => none)).2.2.1 "bid" "BID_PRICE"
    (by decide) rfl

/-- Counterexample to C9 as stated: for a raw item with no fields at all —
in particular `key` and `SYMBOL` absent — the emitted record still contains
the `symbol` key (with the default empty string), so a key of the mapping
table whose raw value is absent is not omitted. -/
theorem quote_normalizer_symbol_default_counterexample :
    (fun _ => (none : Option String) : RawItem) "key" = none ∧
    (fun _ => (none : Option String) : RawItem) "SYMBOL" = none ∧
    handle_option_quote_item (fun _ => none) = [("symbol", some "")] ∧
    handle_equity_quote_item (fun _ => none) = [("symbol", some "")] :=
  ⟨rfl, rfl, by decide, by decide⟩
